import Mathlib

/-!
Shallow embedding of the heads-up poker engine: the card / hand-evaluation
layer (`gameLogic.js`) and the betting state machine (`index.js`).
JavaScript numbers are modelled as `Int` (all arithmetic here is integral),
JS arrays as `List`, and the stable `Array.prototype.sort` as insertion sort
(stable sorts agree pointwise, so this is the canonical model).
Randomness (`Math.random` inside `shuffleDeck`) is modelled by passing the
already-shuffled deck as an argument.
-/

namespace Poker

inductive Suit
  | hearts | diamonds | clubs | spades
deriving DecidableEq, Inhabited

inductive Rank
  | r2 | r3 | r4 | r5 | r6 | r7 | r8 | r9 | r10 | J | Q | K | A
deriving DecidableEq, Inhabited

/-- `RANK_VALUES` from gameLogic.js. -/
def rankValue : Rank → Int
  | .r2 => 2 | .r3 => 3 | .r4 => 4 | .r5 => 5 | .r6 => 6 | .r7 => 7
  | .r8 => 8 | .r9 => 9 | .r10 => 10 | .J => 11 | .Q => 12 | .K => 13 | .A => 14

structure Card where
  suit : Suit
  rank : Rank
  faceUp : Bool
deriving DecidableEq

instance : Inhabited Card := ⟨⟨.hearts, .r2, false⟩⟩

/-- `SUITS` from gameLogic.js, in source order. -/
def SUITS : List Suit := [.hearts, .diamonds, .clubs, .spades]

/-- `RANKS` from gameLogic.js, in source order. -/
def RANKS : List Rank :=
  [.r2, .r3, .r4, .r5, .r6, .r7, .r8, .r9, .r10, .J, .Q, .K, .A]

/-- `createDeck()` from gameLogic.js. -/
def createDeck : List Card :=
  SUITS.flatMap fun s => RANKS.map fun r => ⟨s, r, false⟩

/-- `dealCards(deck, count)` from gameLogic.js: `(deck.slice(0, count),
deck.slice(count))`. -/
def dealCards (deck : List Card) (count : Nat) : List Card × List Card :=
  (deck.take count, deck.drop count)

/-- `sortByRank` from gameLogic.js: a stable descending sort by rank value. -/
def sortByRank (cards : List Card) : List Card :=
  List.insertionSort (fun a b => rankValue b.rank ≤ rankValue a.rank) cards

/-- First-occurrence deduplication, modelling the key order of a JS `Map`
built by insertion (`groupBySuit` / `groupByRank` iterate keys in first
occurrence order). -/
def dedupFirstGo [DecidableEq α] : List α → List α → List α
  | [], _ => []
  | a :: t, seen =>
    if a ∈ seen then dedupFirstGo t seen else a :: dedupFirstGo t (a :: seen)

def dedupFirst [DecidableEq α] (l : List α) : List α := dedupFirstGo l []

/-- `groupBySuit` from gameLogic.js: groups in key-insertion order, each group
in card order. -/
def groupBySuit (cards : List Card) : List (List Card) :=
  (dedupFirst (cards.map Card.suit)).map fun s =>
    cards.filter fun c => decide (c.suit = s)

/-- `groupByRank` from gameLogic.js (as the list of rank groups in
key-insertion order). -/
def groupByRank (cards : List Card) : List (List Card) :=
  (dedupFirst (cards.map Card.rank)).map fun r =>
    cards.filter fun c => decide (c.rank = r)

/-- `findFlush` from gameLogic.js: first suit group with ≥ 5 members, top 5 by
rank. -/
def findFlush (cards : List Card) : Option (List Card) :=
  ((groupBySuit cards).find? fun g => decide (5 ≤ g.length)).map fun g =>
    (sortByRank g).take 5

/-- The unique-rank map of `findStraight`: first card of each rank value, in
insertion order (`if (!uniqueRanks.has(value)) uniqueRanks.set(value, card)`). -/
def uniqueRankMap (cards : List Card) : List (Int × Card) :=
  cards.foldl
    (fun acc c =>
      if acc.any fun kv => kv.1 == rankValue c.rank then acc
      else acc ++ [(rankValue c.rank, c)])
    []

/-- `uniqueRanks.get(v)` lookup. -/
def lookupRank (m : List (Int × Card)) (v : Int) : Option Card :=
  (m.find? fun kv => kv.1 == v).map Prod.snd

/-- The window scan of `findStraight`: over the descending value list, take
the first window of 5 consecutive values, returning its cards via the map. -/
def scanStraight (m : List (Int × Card)) : List Int → Option (List Card)
  | v0 :: v1 :: v2 :: v3 :: v4 :: rest =>
    if v1 = v0 - 1 ∧ v2 = v0 - 2 ∧ v3 = v0 - 3 ∧ v4 = v0 - 4 then
      some ([v0, v0 - 1, v0 - 2, v0 - 3, v0 - 4].filterMap (lookupRank m))
    else
      scanStraight m (v1 :: v2 :: v3 :: v4 :: rest)
  | _ => none

/-- `findStraight` from gameLogic.js: Ace also registered at value 1 for the
wheel; values scanned from highest to lowest. -/
def findStraight (cards : List Card) : Option (List Card) :=
  let base := uniqueRankMap cards
  let m :=
    match cards.find? fun c => decide (c.rank = Rank.A) with
    | some a => base ++ [(1, a)]
    | none => base
  let values := List.insertionSort (fun a b => b ≤ a) (m.map Prod.fst)
  scanStraight m values

/-- `findStraightFlush` from gameLogic.js: for each suit with ≥ 5 members (in
key order), the first straight found restricted to that suit. -/
def findStraightFlush (cards : List Card) : Option (List Card) :=
  ((groupBySuit cards).filter fun g => decide (5 ≤ g.length)).findSome?
    findStraight

structure HandResult where
  rank : Int
  name : String
  cards : List Card
  kickers : List Card
deriving DecidableEq

/-- Stable descending sort of rank groups by the rank value of their first
card (the `pairs.sort`, `threes.sort`, `fours.sort` calls in gameLogic.js). -/
def sortGroups (gs : List (List Card)) : List (List Card) :=
  List.insertionSort
    (fun a b => rankValue (b.headI).rank ≤ rankValue (a.headI).rank) gs

/-- `evaluateHand(holeCards, communityCards)` from gameLogic.js. -/
def evaluateHand (holeCards communityCards : List Card) : HandResult :=
  let allCards := holeCards ++ communityCards
  let sorted := sortByRank allCards
  let byRank := groupByRank allCards
  match findStraightFlush allCards with
  | some sf =>
    if rankValue (sf.headI).rank = 14 then ⟨10, "Royal Flush", sf, []⟩
    else ⟨9, "Straight Flush", sf, []⟩
  | none =>
    let pairs := sortGroups (byRank.filter fun g => decide (g.length = 2))
    let threes := sortGroups (byRank.filter fun g => decide (g.length = 3))
    let fours := sortGroups (byRank.filter fun g => decide (g.length = 4))
    if 0 < fours.length then
      let f := fours.headI
      ⟨8, "Four of a Kind", f,
        (sorted.filter fun c => decide (c.rank ≠ (f.headI).rank)).take 1⟩
    else if 0 < threes.length ∧ (0 < pairs.length ∨ 1 < threes.length) then
      let tripCards := threes.headI
      let pairCards :=
        if 1 < threes.length then (threes.getD 1 []).take 2 else pairs.headI
      ⟨7, "Full House", tripCards ++ pairCards, []⟩
    else
      match findFlush allCards with
      | some fl => ⟨6, "Flush", fl, []⟩
      | none =>
        match findStraight allCards with
        | some st => ⟨5, "Straight", st, []⟩
        | none =>
          if 0 < threes.length then
            ⟨4, "Three of a Kind", threes.headI,
              (sorted.filter fun c =>
                decide (c.rank ≠ ((threes.headI).headI).rank)).take 2⟩
          else if 2 ≤ pairs.length then
            let usedRanks := [((pairs.headI).headI).rank,
              ((pairs.getD 1 []).headI).rank]
            ⟨3, "Two Pair", pairs.headI ++ pairs.getD 1 [],
              (sorted.filter fun c => decide (c.rank ∉ usedRanks)).take 1⟩
          else if pairs.length = 1 then
            ⟨2, "Pair", pairs.headI,
              (sorted.filter fun c =>
                decide (c.rank ≠ ((pairs.headI).headI).rank)).take 3⟩
          else ⟨1, "High Card", sorted.take 1, (sorted.drop 1).take 4⟩

/-- The pairwise rank-comparison loop of `compareHands`: first nonzero
difference over the common prefix, else 0. -/
def compareCardRanks : List Card → List Card → Int
  | a :: t1, b :: t2 =>
    if rankValue a.rank - rankValue b.rank ≠ 0 then
      rankValue a.rank - rankValue b.rank
    else compareCardRanks t1 t2
  | _, _ => 0

/-- `compareHands(hand1, hand2)` from gameLogic.js. -/
def compareHands (h1 h2 : HandResult) : Int :=
  if h1.rank ≠ h2.rank then h1.rank - h2.rank
  else
    let c := compareCardRanks h1.cards h2.cards
    if c ≠ 0 then c else compareCardRanks h1.kickers h2.kickers

/-! ## The betting engine (`index.js`) -/

/-- `SMALL_BLIND` from index.js. -/
def SMALL_BLIND : Int := 10

/-- `BIG_BLIND` from index.js. -/
def BIG_BLIND : Int := 20

/-- `INITIAL_CHIPS` from index.js. -/
def INITIAL_CHIPS : Int := 1000

/-- A player record as held in `room.players` / `gameState.players`
(transport-only fields `socketId` / `isConnected` omitted). -/
structure Player where
  id : String
  name : String
  chips : Int
  cards : List Card
  currentBet : Int
  folded : Bool
  isAllIn : Bool
  hasActed : Bool
deriving DecidableEq

instance : Inhabited Player :=
  ⟨{ id := "", name := "", chips := 0, cards := [], currentBet := 0,
     folded := false, isAllIn := false, hasActed := false }⟩

inductive Phase
  | preflop | flop | turn | river | showdown
deriving DecidableEq, Inhabited

/-- The game state created by `createGameState` (`winner` as an id/name pair,
`winningHand` as its display string). -/
structure GameState where
  players : List Player
  communityCards : List Card
  pot : Int
  currentPlayerIndex : Nat
  dealerIndex : Nat
  phase : Phase
  currentBet : Int
  minRaise : Int
  deck : List Card
  winner : Option (String × String)
  winningHand : Option String
deriving DecidableEq

/-- The action strings accepted by `processAction`'s switch. -/
inductive Action
  | fold | check | call | raise | allIn
deriving DecidableEq

/-- The dealing loop of `createGameState`: each player in turn gets the next
2 cards of the deck, and the per-hand fields are reset (the `...player`
spread with fresh `cards`, `currentBet`, `folded`, `isAllIn`, `hasActed`). -/
def dealToPlayers (deck : List Card) : List Player → List Player × List Card
  | [] => ([], deck)
  | p :: rest =>
    let dealt := dealCards deck 2
    let restDealt := dealToPlayers dealt.2 rest
    ({ p with
        cards := dealt.1
        currentBet := 0
        folded := false
        isAllIn := false
        hasActed := false } :: restDealt.1, restDealt.2)

/-- One blind post of `createGameState`: `min(blind, chips)` moves from the
seat's stack to its `currentBet`, the seat is marked all-in when its stack
hits 0, and the posted amount is returned alongside. -/
def postBlind (blind : Int) (idx : Nat) (ps : List Player) :
    List Player × Int :=
  let p := ps.getD idx default
  let amt := min blind p.chips
  let p1 := { p with chips := p.chips - amt, currentBet := amt }
  let p2 := if p1.chips = 0 then { p1 with isAllIn := true } else p1
  (ps.set idx p2, amt)

/-- `createGameState(room)` from index.js. The shuffled deck is passed in
(`shuffleDeck(createDeck())` uses `Math.random`); `prevDealer` models
`room.gameState?.dealerIndex`. The big blind is read after the small blind
was written, as in the source's in-place mutation. -/
def createGameState (deck : List Card) (roomPlayers : List Player)
    (prevDealer : Option Nat) : GameState :=
  let dealt := dealToPlayers deck roomPlayers
  let players0 := dealt.1
  let n := roomPlayers.length
  let dealerIndex := match prevDealer with
    | some d => (d + 1) % n
    | none => 0
  let sbIndex := dealerIndex
  let bbIndex := (dealerIndex + 1) % n
  let sb := postBlind SMALL_BLIND sbIndex players0
  let bb := postBlind BIG_BLIND bbIndex sb.1
  { players := bb.1
    communityCards := []
    pot := sb.2 + bb.2
    currentPlayerIndex := sbIndex
    dealerIndex := dealerIndex
    phase := .preflop
    currentBet := bb.2
    minRaise := BIG_BLIND
    deck := dealt.2
    winner := none
    winningHand := none }

/-- A card as serialized to a client: either the face-down placeholder
`{ faceUp: false }` (no rank, no suit) or a full card with `faceUp: true`. -/
inductive ViewCard
  | hidden
  | shown (c : Card)
deriving DecidableEq

/-- A player as serialized to a client by `getPlayerView`. -/
structure PlayerView where
  id : String
  name : String
  chips : Int
  cards : List ViewCard
  currentBet : Int
  folded : Bool
  isAllIn : Bool
  hasActed : Bool
deriving DecidableEq

/-- The state as serialized to a client: every `GameState` field except the
deck (`deck: undefined`), players replaced by their views. -/
structure GameView where
  players : List PlayerView
  communityCards : List Card
  pot : Int
  currentPlayerIndex : Nat
  dealerIndex : Nat
  phase : Phase
  currentBet : Int
  minRaise : Int
  winner : Option (String × String)
  winningHand : Option String
deriving DecidableEq

/-- `getPlayerView(gameState, playerId)` from index.js. -/
def getPlayerView (s : GameState) (playerId : String) : GameView :=
  { players := s.players.map fun p =>
      { id := p.id, name := p.name, chips := p.chips,
        cards :=
          if p.id = playerId ∨ s.phase = Phase.showdown then
            p.cards.map fun c => ViewCard.shown { c with faceUp := true }
          else
            p.cards.map fun _ => ViewCard.hidden,
        currentBet := p.currentBet, folded := p.folded,
        isAllIn := p.isAllIn, hasActed := p.hasActed }
    communityCards := s.communityCards
    pot := s.pot
    currentPlayerIndex := s.currentPlayerIndex
    dealerIndex := s.dealerIndex
    phase := s.phase
    currentBet := s.currentBet
    minRaise := s.minRaise
    winner := s.winner
    winningHand := s.winningHand }

/-- `checkBettingRoundComplete(gameState)` from index.js. -/
def checkBettingRoundComplete (s : GameState) : Bool :=
  let activePlayers := s.players.filter fun p => !p.folded && !p.isAllIn
  if activePlayers.length = 0 then true
  else if activePlayers.length = 1 ∧
      (s.players.filter fun p => !p.folded).length = 1 then true
  else
    activePlayers.all fun p => p.hasActed && decide (p.currentBet = s.currentBet)

/-- `determineWinner(gameState)` from index.js. The empty-active-players case
is unreachable (`playerHands[0]` would throw in JS); it is modelled as the
identity, as is the impossible empty result of the sort. -/
def determineWinner (s : GameState) : GameState :=
  let activePlayers := s.players.filter fun p => !p.folded
  match activePlayers with
  | [] => s
  | [w] =>
    { s with
      players := s.players.map fun p =>
        if p.id = w.id then { p with chips := p.chips + s.pot } else p
      winner := some (w.id, w.name)
      winningHand := some "Other player folded"
      pot := 0
      phase := .showdown }
  | w0 :: w1 :: rest =>
    let playerHands := (w0 :: w1 :: rest).map fun p =>
      (p, evaluateHand p.cards s.communityCards)
    let sorted := List.insertionSort
      (fun x y => compareHands y.2 x.2 ≤ 0) playerHands
    match sorted with
    | [] => s
    | top :: _ =>
      { s with
        players := s.players.map fun p =>
          if p.id = top.1.id then { p with chips := p.chips + s.pot } else p
        winner := some (top.1.id, top.1.name)
        winningHand := some top.2.name
        pot := 0
        phase := .showdown }

/-- The first-to-act scan of `moveToNextPhase`: advance past folded / all-in
seats, stopping (regardless) once the scan wraps to the dealer seat. The fuel
(list length) covers every iteration the JS `while` can perform. -/
def firstToActGo (ps : List Player) (dealer : Nat) (cur : Nat) : Nat → Nat
  | 0 => cur
  | fuel + 1 =>
    let p := ps.getD cur default
    if p.folded || p.isAllIn then
      let next := (cur + 1) % ps.length
      if next = dealer then next else firstToActGo ps dealer next fuel
    else cur

/-- `moveToNextPhase(gameState)` from index.js. A `dealCards` on an exhausted
deck yields no card (where JS would fabricate a rankless object), an edge no
reachable state hits. -/
def moveToNextPhase (s : GameState) : GameState :=
  match s.phase with
  | .showdown => s
  | .river => determineWinner { s with phase := .showdown }
  | ph =>
    let dealt :=
      if ph = Phase.preflop then dealCards (s.deck.drop 1) 3
      else dealCards (s.deck.drop 1) 1
    let newCommunityCards :=
      if ph = Phase.preflop then dealt.1.map fun c => { c with faceUp := true }
      else s.communityCards ++ dealt.1.map fun c => { c with faceUp := true }
    let resetPlayers := s.players.map fun p =>
      { p with currentBet := 0, hasActed := false }
    let firstToAct :=
      firstToActGo resetPlayers s.dealerIndex
        ((s.dealerIndex + 1) % s.players.length) s.players.length
    { s with
      phase := match ph with
        | .preflop => .flop
        | .flop => .turn
        | _ => .river
      communityCards := newCommunityCards
      deck := dealt.2
      currentBet := 0
      minRaise := BIG_BLIND
      players := resetPlayers
      currentPlayerIndex := firstToAct }

/-- The fast-forward loop of `processAction`
(`while (finalState.phase !== 'showdown') finalState = moveToNextPhase(...)`).
Each step advances the phase, so fuel 4 reproduces the loop exactly. -/
def fastForward : Nat → GameState → GameState
  | 0, s => s
  | fuel + 1, s =>
    if s.phase = Phase.showdown then s else fastForward fuel (moveToNextPhase s)

/-- The next-player scan at the end of `processAction`: advance past folded /
all-in seats. Fuel `ps.length` finds the next active seat whenever one exists
(when none exists the JS loop diverges, which no reachable call does). -/
def nextActiveGo (ps : List Player) (cur : Nat) : Nat → Nat
  | 0 => cur
  | fuel + 1 =>
    let p := ps.getD cur default
    if p.folded || p.isAllIn then nextActiveGo ps ((cur + 1) % ps.length) fuel
    else cur

/-- The raise / all-in reopening map: every seat except `i` gets
`hasActed := folded || isAllIn`. -/
def resetOthersGo (i : Nat) (k : Nat) : List Player → List Player
  | [] => []
  | p :: t =>
    (if k = i then p else { p with hasActed := p.folded || p.isAllIn }) ::
      resetOthersGo i (k + 1) t

def resetOthers (i : Nat) (ps : List Player) : List Player :=
  resetOthersGo i 0 ps

/-- The `switch (action)` of `processAction`: produces the updated player
list, pot, table bet and minRaise. -/
def actionStep (s : GameState) (playerIndex : Nat) (player : Player)
    (action : Action) (amount : Option Int) :
    List Player × Int × Int × Int :=
  match action with
      | .fold =>
        (s.players.set playerIndex { player with folded := true, hasActed := true },
         s.pot, s.currentBet, s.minRaise)
      | .check =>
        (s.players.set playerIndex { player with hasActed := true },
         s.pot, s.currentBet, s.minRaise)
      | .call =>
        let callAmount := min (s.currentBet - player.currentBet) player.chips
        (s.players.set playerIndex
          { player with
            chips := player.chips - callAmount
            currentBet := player.currentBet + callAmount
            isAllIn := decide (player.chips - callAmount = 0)
            hasActed := true },
         s.pot + callAmount, s.currentBet, s.minRaise)
      | .raise =>
        let raiseAmount := match amount with
          | some a => if a = 0 then s.currentBet + s.minRaise else a
          | none => s.currentBet + s.minRaise
        let totalBet := min raiseAmount (player.chips + player.currentBet)
        let additionalBet := totalBet - player.currentBet
        let up1 := s.players.set playerIndex
          { player with
            chips := player.chips - additionalBet
            currentBet := totalBet
            isAllIn := decide (player.chips - additionalBet = 0)
            hasActed := true }
        (resetOthers playerIndex up1,
         s.pot + additionalBet, totalBet,
         max s.minRaise (totalBet - s.currentBet))
      | .allIn =>
        let allInAmount := player.chips
        let newBet := player.currentBet + allInAmount
        let allInPlayer := { player with
          chips := 0
          currentBet := newBet
          isAllIn := true
          hasActed := true }
        if s.currentBet < newBet then
          ((resetOthers playerIndex s.players).set playerIndex allInPlayer,
           s.pot + allInAmount, newBet,
           max s.minRaise (newBet - s.currentBet))
        else
          (s.players.set playerIndex allInPlayer,
           s.pot + allInAmount, s.currentBet, s.minRaise)

/-- The tail of `processAction`: end the hand on a lone survivor, else
advance the phase (fast-forwarding when everyone live is all-in) on a
complete round, else pass the turn to the next active seat.
`origPlayersLength` is `gameState.players.length` (the player count, which
the action switch never changes). -/
def resolveAfterAction (origPlayersLength playerIndex : Nat)
    (newState : GameState) : GameState :=
  if (newState.players.filter fun p => !p.folded).length = 1 then
    determineWinner newState
  else if checkBettingRoundComplete newState then
    if (newState.players.filter fun p => !p.folded && !p.isAllIn).length ≤ 1 then
      fastForward 4 newState
    else moveToNextPhase newState
  else
    { newState with currentPlayerIndex :=
        (nextActiveGo newState.players ((playerIndex + 1) % origPlayersLength)
          origPlayersLength) }

/-- `processAction(gameState, playerId, action, amount)` from index.js.
`amount` is the optional raise payload; JS's `amount || default` treats 0 as
absent. -/
def processAction (s : GameState) (playerId : String) (action : Action)
    (amount : Option Int) : GameState :=
  match s.players.findIdx? fun p => decide (p.id = playerId) with
  | none => s
  | some playerIndex =>
    let player := s.players.getD playerIndex default
    let step := actionStep s playerIndex player action amount
    let newState := { s with
      players := step.1
      pot := step.2.1
      currentBet := step.2.2.1
      minRaise := step.2.2.2 }
    resolveAfterAction s.players.length playerIndex newState

/-! ## Concrete fixtures -/

/-- A fresh player with the given id and stack, as built by `createRoom` /
`joinRoom`. -/
def mkPlayer (i : String) (c : Int) : Player :=
  { id := i, name := i, chips := c, cards := [], currentBet := 0,
    folded := false, isAllIn := false, hasActed := false }

/-- A mid-hand state template (dealer at seat 0, empty deck). -/
def mkState (ps : List Player) (pot cb : Int) (ph : Phase)
    (board : List Card) : GameState :=
  { players := ps
    communityCards := board
    pot := pot
    currentPlayerIndex := 0
    dealerIndex := 0
    phase := ph
    currentBet := cb
    minRaise := 20
    deck := []
    winner := none
    winningHand := none }

/-- Two fresh 1000-chip players, the `startGame` configuration. -/
def freshPair : List Player := [mkPlayer "a" 1000, mkPlayer "b" 1000]

/-- The state right after `startHand` on two fresh 1000-chip players. -/
def startedFresh : GameState := createGameState [] freshPair none

/-- Total chips held in the players' stacks. -/
def chipsOf (ps : List Player) : Int := (ps.map Player.chips).sum

/-- The players' ids, in seat order. -/
def idsOf (ps : List Player) : List String := ps.map Player.id

/-- Sum of chips plus pot: the quantity the engine actually conserves. -/
def potChips (s : GameState) : Int :=
  (s.players.map Player.chips).sum + s.pot

/-! ## C1 / C9 / C6 counterexample states -/

/-- Small blind holding exactly the small blind (10 chips): posting leaves
them all-in while first to act. -/
def startedShortSB : GameState :=
  createGameState [] [mkPlayer "a" 10, mkPlayer "b" 1000] none

/-- Big blind holding 5 chips: the posted big blind (5) differs from the
nominal `BIG_BLIND` (20). -/
def startedShortBB : GameState :=
  createGameState [] [mkPlayer "a" 1000, mkPlayer "b" 5] none

/-! ## C2 fixture: a tied showdown -/

/-- A board that both players play in full: an Ace-high spade flush. -/
def tiedBoard : List Card :=
  [⟨.spades, .A, true⟩, ⟨.spades, .K, true⟩, ⟨.spades, .Q, true⟩,
   ⟨.spades, .J, true⟩, ⟨.spades, .r9, true⟩]

def tiedPlayerA : Player :=
  { mkPlayer "a" 50 with
    cards := [⟨.hearts, .r2, false⟩, ⟨.hearts, .r3, false⟩]
    hasActed := true }

def tiedPlayerB : Player :=
  { mkPlayer "b" 50 with
    cards := [⟨.diamonds, .r2, false⟩, ⟨.diamonds, .r3, false⟩]
    hasActed := true }

/-- A river state whose two live players hold identical flushes, pot 100. -/
def tiedState : GameState :=
  mkState [tiedPlayerA, tiedPlayerB] 100 0 .river tiedBoard

/-! ## C3 fixture: an illegal check -/

/-- Preflop after the blinds: the small blind ("a") is 10 behind the table
bet, so checking is illegal for them. -/
def behindState : GameState :=
  mkState [{ mkPlayer "a" 990 with currentBet := 10 },
           { mkPlayer "b" 980 with currentBet := 20 }] 30 20 .preflop []

/-! ## C7 fixture: the wheel -/

def wheelHole : List Card := [⟨.hearts, .A, false⟩, ⟨.diamonds, .r2, false⟩]

def wheelCommunity : List Card :=
  [⟨.clubs, .r3, true⟩, ⟨.spades, .r4, true⟩, ⟨.hearts, .r5, true⟩,
   ⟨.diamonds, .r9, true⟩, ⟨.clubs, .K, true⟩]

/-! ## C8 fixture: a raise after a check -/

/-- Player "a" has already checked this round. -/
def checkedPlayerA : Player := { mkPlayer "a" 1000 with hasActed := true }

def checkedPlayerB : Player := mkPlayer "b" 1000

/-- Flop, nothing bet this round, "a" has checked and "b" is to act. -/
def raiseState : GameState :=
  { mkState [checkedPlayerA, checkedPlayerB] 40 0 .flop [] with
    currentPlayerIndex := 1 }

/-! ## Reachability -/

/-- States reachable by `startHand` (`createGameState`) followed by any
sequence of `processAction` calls, tagged with the hand's pre-hand chip
total. Initial players carry distinct ids (`uuidv4()` in the server). -/
inductive Reachable : Int → GameState → Prop
  | start (deck : List Card) (ps : List Player) (prev : Option Nat)
      (hids : (ps.map Player.id).Nodup) :
      Reachable ((ps.map Player.chips).sum) (createGameState deck ps prev)
  | step {t : Int} {s : GameState} (pid : String) (a : Action)
      (amt : Option Int) :
      Reachable t s → Reachable t (processAction s pid a amt)

/-! ## Claim theorems: the closed evaluations -/

/-- C1 (counterexample): directly after `startHand` on two 1000-chip players
the claimed invariant `sum(chips + currentBet) + pot = starting total`
already fails — each posted blind is counted both in `currentBet` and in
`pot`, so the sum reads 2030 against a 2000-chip start. -/
theorem startHand_breaks_chips_plus_bets_conservation :
    (startedFresh.players.map fun p => p.chips + p.currentBet).sum
        + startedFresh.pot
      ≠ (freshPair.map Player.chips).sum := by decide

/-- C2 (code_bug evaluation): at a showdown whose two live players hold
identical flushes (`compareHands` returns 0), `determineWinner` hands the
whole 100-chip pot to the first-listed player (chips 50 → 150) and nothing
to the other (50 → 50), instead of splitting it evenly. -/
theorem tied_showdown_awards_whole_pot :
    compareHands (evaluateHand tiedPlayerA.cards tiedBoard)
        (evaluateHand tiedPlayerB.cards tiedBoard) = 0 ∧
    (determineWinner tiedState).players.map Player.chips = [150, 50] ∧
    (determineWinner tiedState).pot = 0 := by decide

/-- C3 (code_bug evaluation): `processAction` returns no error value at all
(its type is a bare `GameState`); on an unknown `playerId` it silently
returns the state unchanged, and a check by a player 10 chips behind the
table bet is applied rather than rejected — the state mutates
(`hasActed := true`). -/
theorem invalid_action_silent_noop_and_mutation :
    processAction behindState "ghost" Action.check none = behindState ∧
    (behindState.players.getD 0 default).currentBet < behindState.currentBet ∧
    ((processAction behindState "a" Action.check none).players.getD 0
        default).hasActed = true ∧
    processAction behindState "a" Action.check none ≠ behindState := by decide

/-- C4 (code_bug evaluation): `dealCards` on a 1-card deck asked for 2 cards
silently returns a single card and an empty remainder — there is no
`DeckExhausted` failure mode anywhere in its type. -/
theorem dealCards_underflow_returns_fewer :
    (dealCards [⟨.hearts, .A, false⟩] 2).1.length = 1 ∧
    (dealCards [⟨.hearts, .A, false⟩] 2).1.length < 2 := by decide

/-- C6 (code_bug evaluation): after `startHand` where the small blind holds
exactly 10 chips, the state is non-terminal (`preflop`) yet
`currentPlayerIndex` designates a player already all-in from posting the
blind. -/
theorem startHand_allIn_small_blind_is_current :
    startedShortSB.phase ≠ Phase.showdown ∧
    (startedShortSB.players.getD startedShortSB.currentPlayerIndex
        default).isAllIn = true := by decide

/-- C7: on hole cards {A♥, 2♦} and community {3♣, 4♠, 5♥, 9♦, K♣},
`evaluateHand` returns category Straight (rank 5) whose first card is the
five (rank value 5), the Ace having been registered at value 1 to complete
the wheel. -/
theorem wheel_straight_evaluation :
    (evaluateHand wheelHole wheelCommunity).rank = 5 ∧
    (evaluateHand wheelHole wheelCommunity).name = "Straight" ∧
    ((evaluateHand wheelHole wheelCommunity).cards.head?.map fun c =>
      rankValue c.rank) = some 5 ∧
    ((evaluateHand wheelHole wheelCommunity).cards.getLast?.map
      Card.rank) = some Rank.A := by decide

/-- C9 (counterexample): after `startHand` where the big blind holds 5 chips
(posted big blind `min(20, 5) = 5`), `currentBet` is the posted blind (5)
while `minRaise` is the nominal constant (20) — they differ, so they cannot
both equal "the big blind amount" as the claim requires. -/
theorem startHand_minRaise_not_posted_blind :
    startedShortBB.currentBet = min BIG_BLIND 5 ∧
    startedShortBB.minRaise = BIG_BLIND ∧
    startedShortBB.currentBet ≠ startedShortBB.minRaise := by decide


/-- C5: the projection `getPlayerView` (i) replaces each player's hole cards
with face-down placeholders carrying no rank or suit unless the viewer is
that player or the phase is showdown, (ii) at showdown shows every player's
hole cards face up, and (iii) never depends on (nor contains — `GameView`
has no deck field) the remaining deck. -/
theorem getPlayerView_hides_cards (s : GameState) (viewerId : String)
    (i : Nat) (p : Player) (hp : s.players[i]? = some p) :
    (p.id ≠ viewerId → s.phase ≠ Phase.showdown →
      ∃ q, (getPlayerView s viewerId).players[i]? = some q ∧
        q.cards = p.cards.map fun _ => ViewCard.hidden) ∧
    (s.phase = Phase.showdown →
      ∃ q, (getPlayerView s viewerId).players[i]? = some q ∧
        q.cards = p.cards.map fun c => ViewCard.shown { c with faceUp := true }) ∧
    (∀ d, getPlayerView { s with deck := d } viewerId = getPlayerView s viewerId) := by
  have hv : (getPlayerView s viewerId).players[i]? = some
      { id := p.id, name := p.name, chips := p.chips,
        cards := if p.id = viewerId ∨ s.phase = Phase.showdown
          then p.cards.map fun c => ViewCard.shown { c with faceUp := true }
          else p.cards.map fun _ => ViewCard.hidden,
        currentBet := p.currentBet, folded := p.folded,
        isAllIn := p.isAllIn, hasActed := p.hasActed } := by
    simp [getPlayerView, List.getElem?_map, hp]
  refine ⟨fun hid hph => ⟨_, hv, ?_⟩, fun hph => ⟨_, hv, ?_⟩, fun d => rfl⟩
  · rw [if_neg]
    rintro (h | h)
    · exact hid h
    · exact hph h
  · rw [if_pos (Or.inr hph)]

/-- C5 witness: in the tied-flush river state (not showdown), the view for
"a" hides opponent "b"'s two hole cards entirely. -/
theorem getPlayerView_hides_cards_witness :
    ∃ q, (getPlayerView tiedState "a").players[1]? = some q ∧
      q.cards = tiedPlayerB.cards.map fun _ => ViewCard.hidden :=
  (getPlayerView_hides_cards tiedState "a" 1 tiedPlayerB (by decide)).1
    (by decide) (by decide)

/-! ## List helper lemmas -/

lemma getD_default_eq {l : List Player} {i : Nat} {a : Player}
    (h : l[i]? = some a) : l.getD i default = a := by
  simp [List.getD, h]

lemma resetOthersGo_getElem? (i k n : Nat) (ps : List Player) :
    (resetOthersGo i k ps)[n]? = ps[n]?.map fun p =>
      if k + n = i then p else { p with hasActed := p.folded || p.isAllIn } := by
  induction ps generalizing k n with
  | nil => simp [resetOthersGo]
  | cons p t ih =>
    cases n with
    | zero => simp [resetOthersGo]
    | succ m =>
      simp only [resetOthersGo, List.getElem?_cons_succ]
      rw [ih (k + 1) m, show k + (m + 1) = k + 1 + m from by omega]

lemma resetOthers_getElem? (i n : Nat) (ps : List Player) :
    (resetOthers i ps)[n]? = ps[n]?.map fun p =>
      if n = i then p else { p with hasActed := p.folded || p.isAllIn } := by
  have h := resetOthersGo_getElem? i 0 n ps
  simpa [resetOthers] using h

lemma two_le_countP {α : Type} (p : α → Bool) (l : List α) {i j : Nat}
    {a b : α} (hij : i ≠ j) (ha : l[i]? = some a) (hb : l[j]? = some b)
    (hpa : p a = true) (hpb : p b = true) : 2 ≤ l.countP p := by
  induction l generalizing i j with
  | nil => simp at ha
  | cons x t ih =>
    cases i with
    | zero =>
      cases j with
      | zero => exact absurd rfl hij
      | succ m =>
        simp only [List.getElem?_cons_zero, Option.some_inj] at ha
        simp only [List.getElem?_cons_succ] at hb
        have hone : 0 < t.countP p :=
          List.countP_pos_iff.mpr ⟨b, List.getElem?_mem hb, hpb⟩
        rw [List.countP_cons, ha, hpa]
        simp only [if_true]
        omega
    | succ n =>
      cases j with
      | zero =>
        simp only [List.getElem?_cons_zero, Option.some_inj] at hb
        simp only [List.getElem?_cons_succ] at ha
        have hone : 0 < t.countP p :=
          List.countP_pos_iff.mpr ⟨a, List.getElem?_mem ha, hpa⟩
        rw [List.countP_cons, hb, hpb]
        simp only [if_true]
        omega
      | succ m =>
        simp only [List.getElem?_cons_succ] at ha hb
        have := ih (fun h => hij (by omega)) ha hb
        rw [List.countP_cons]
        omega

lemma all_eq_false_of_mem {α : Type} {p : α → Bool} {l : List α} {a : α}
    (ha : a ∈ l) (hpa : p a = false) : l.all p = false := by
  rw [Bool.eq_false_iff]
  intro h
  have := List.all_eq_true.mp h a ha
  rw [hpa] at this
  exact Bool.false_ne_true this

/-- The raise branch of `actionStep` in shape form: some updated raiser `q`
(same id and folded flag, `hasActed` true) is written at the acting seat and
everyone else goes through the reopening map. -/
lemma actionStep_raise_shape (s : GameState) (i : Nat) (player : Player)
    (amt : Option Int) :
    ∃ q : Player,
      (actionStep s i player Action.raise amt).1 =
        resetOthers i (s.players.set i q) ∧
      q.id = player.id ∧ q.folded = player.folded ∧ q.hasActed = true :=
  ⟨_, rfl, rfl, rfl, rfl⟩

/-- `checkBettingRoundComplete` reads only `players` and `currentBet`. -/
lemma checkBettingRoundComplete_index_congr (s : GameState) (k : Nat) :
    checkBettingRoundComplete { s with currentPlayerIndex := k } =
      checkBettingRoundComplete s := rfl

/-- C8: after a raise by a live player in a state with at least one other
live (non-folded, non-all-in) player, the raiser's `hasActed` is true, every
other live player's `hasActed` is false, and the betting round is not
complete — anyone who had already checked must act again. -/
theorem raise_reopens_action (s : GameState) (pid : String) (amt : Option Int)
    (i j : Nat) (pr pj : Player)
    (hfind : (s.players.findIdx? fun p => decide (p.id = pid)) = some i)
    (hpr : s.players[i]? = some pr) (hprf : pr.folded = false)
    (hij : j ≠ i) (hpj : s.players[j]? = some pj)
    (hjf : pj.folded = false) (hja : pj.isAllIn = false) :
    (∃ q, (processAction s pid Action.raise amt).players[i]? = some q ∧
       q.hasActed = true) ∧
    (∀ k pk, k ≠ i → s.players[k]? = some pk → pk.folded = false →
       pk.isAllIn = false →
       ∃ q, (processAction s pid Action.raise amt).players[k]? = some q ∧
         q.hasActed = false) ∧
    checkBettingRoundComplete (processAction s pid Action.raise amt) = false := by
  have hlen : i < s.players.length := (List.getElem?_eq_some.mp hpr).1
  obtain ⟨q, hshape, hqid, hqfold, hqact⟩ := actionStep_raise_shape s i pr amt
  have hqf : q.folded = false := hqfold.trans hprf
  -- the updated player list
  have h_i : (resetOthers i (s.players.set i q))[i]? = some q := by
    rw [resetOthers_getElem?, List.getElem?_set_self hlen]
    simp
  have h_ne : ∀ k, k ≠ i → (resetOthers i (s.players.set i q))[k]? =
      s.players[k]?.map fun p =>
        { p with hasActed := p.folded || p.isAllIn } := by
    intro k hk
    rw [resetOthers_getElem?, List.getElem?_set_ne (fun h => hk h.symm)]
    cases s.players[k]? with
    | none => rfl
    | some p => simp [hk]
  have h_j : (resetOthers i (s.players.set i q))[j]? =
      some { pj with hasActed := pj.folded || pj.isAllIn } := by
    rw [h_ne j hij, hpj]
    rfl
  -- the result of processAction
  have hpa : processAction s pid Action.raise amt =
      resolveAfterAction s.players.length i
        { s with
          players := (actionStep s i pr Action.raise amt).1
          pot := (actionStep s i pr Action.raise amt).2.1
          currentBet := (actionStep s i pr Action.raise amt).2.2.1
          minRaise := (actionStep s i pr Action.raise amt).2.2.2 } := by
    simp only [processAction, hfind, getD_default_eq hpr]
  rw [hshape] at hpa
  set ns : GameState :=
    { s with
      players := resetOthers i (s.players.set i q)
      pot := (actionStep s i pr Action.raise amt).2.1
      currentBet := (actionStep s i pr Action.raise amt).2.2.1
      minRaise := (actionStep s i pr Action.raise amt).2.2.2 } with hns
  have hnsp : ns.players = resetOthers i (s.players.set i q) := rfl
  -- at least two live players survive the raise
  have h2 : 2 ≤ ns.players.countP fun p => !p.folded := by
    refine two_le_countP _ _ (fun h => hij h.symm) (hnsp ▸ h_i) (hnsp ▸ h_j)
      ?_ ?_
    · simp [hqf]
    · simp [hjf]
  have hflen : ¬ ((ns.players.filter fun p => !p.folded).length = 1) := by
    rw [← List.countP_eq_length_filter]
    omega
  -- the other live player has not acted, so the round is not complete
  have hjlive : { pj with hasActed := pj.folded || pj.isAllIn } ∈
      ns.players.filter fun p => !p.folded && !p.isAllIn := by
    refine List.mem_filter.mpr ⟨List.getElem?_mem (hnsp ▸ h_j), ?_⟩
    simp [hjf, hja]
  have hcheck : checkBettingRoundComplete ns = false := by
    unfold checkBettingRoundComplete
    rw [if_neg, if_neg]
    · exact all_eq_false_of_mem hjlive (by simp [hjf, hja])
    · rintro ⟨-, h1⟩
      exact hflen h1
    · have := List.ne_nil_of_mem hjlive
      intro h0
      exact this (List.eq_nil_of_length_eq_zero h0)
  -- the dispatch passes the turn without touching the players
  have hres : resolveAfterAction s.players.length i ns =
      { ns with currentPlayerIndex :=
          (nextActiveGo ns.players ((i + 1) % s.players.length)
            s.players.length) } := by
    unfold resolveAfterAction
    rw [if_neg hflen, if_neg (by rw [hcheck]; exact Bool.false_ne_true)]
  rw [hpa, hres]
  refine ⟨⟨q, ?_, hqact⟩, ?_, ?_⟩
  · exact hnsp ▸ h_i
  · intro k pk hk hpk hkf hka
    refine ⟨{ pk with hasActed := pk.folded || pk.isAllIn }, ?_, ?_⟩
    · show ns.players[k]? = _
      rw [hnsp, h_ne k hk, hpk]
      rfl
    · simp [hkf, hka]
  · rw [checkBettingRoundComplete_index_congr]
    exact hcheck

/-- C8 witness: in the flop state where "a" has checked and "b" raises to 40,
player "a" must act again — their view of the round reopens with
`hasActed = false`. -/
theorem raise_reopens_action_witness :
    ∃ q, (processAction raiseState "b" Action.raise (some 40)).players[0]? =
        some q ∧ q.hasActed = false :=
  (raise_reopens_action raiseState "b" (some 40) 1 0 checkedPlayerB
      checkedPlayerA (by decide) (by decide) (by decide) (by decide)
      (by decide) (by decide) (by decide)).2.1 0 checkedPlayerA
    (by decide) (by decide) (by decide) (by decide)

/-! ## Conservation lemmas: list level -/

lemma chipsOf_cons (p : Player) (t : List Player) :
    chipsOf (p :: t) = p.chips + chipsOf t := by
  simp [chipsOf]

lemma idsOf_cons (p : Player) (t : List Player) :
    idsOf (p :: t) = p.id :: idsOf t := rfl

lemma chipsOf_set (ps : List Player) (i : Nat) (b : Player)
    (h : i < ps.length) :
    chipsOf (ps.set i b) =
      chipsOf ps - (ps.getD i default).chips + b.chips := by
  induction ps generalizing i with
  | nil => simp at h
  | cons p t ih =>
    cases i with
    | zero => simp [chipsOf_cons, List.set, List.getD]; ring
    | succ m =>
      have hm : m < t.length := by simpa using h
      simp only [List.set, chipsOf_cons, ih m hm, List.getD_cons_succ]
      ring

lemma idsOf_set (ps : List Player) (i : Nat) (b : Player)
    (hid : b.id = (ps.getD i default).id) :
    idsOf (ps.set i b) = idsOf ps := by
  induction ps generalizing i with
  | nil => simp [List.set]
  | cons p t ih =>
    cases i with
    | zero =>
      simp only [List.getD_cons_zero] at hid
      simp [List.set, idsOf_cons, hid]
    | succ m =>
      simp only [List.getD_cons_succ] at hid
      simp [List.set, idsOf_cons, ih m hid]

lemma chipsOf_resetOthersGo (i k : Nat) (ps : List Player) :
    chipsOf (resetOthersGo i k ps) = chipsOf ps := by
  induction ps generalizing k with
  | nil => rfl
  | cons p t ih =>
    simp only [resetOthersGo, chipsOf_cons, ih (k + 1)]
    split <;> rfl

lemma chipsOf_resetOthers (i : Nat) (ps : List Player) :
    chipsOf (resetOthers i ps) = chipsOf ps :=
  chipsOf_resetOthersGo i 0 ps

lemma idsOf_resetOthersGo (i k : Nat) (ps : List Player) :
    idsOf (resetOthersGo i k ps) = idsOf ps := by
  induction ps generalizing k with
  | nil => rfl
  | cons p t ih =>
    simp only [resetOthersGo, idsOf_cons, ih (k + 1)]
    split <;> rfl

lemma idsOf_resetOthers (i : Nat) (ps : List Player) :
    idsOf (resetOthers i ps) = idsOf ps :=
  idsOf_resetOthersGo i 0 ps

lemma length_resetOthersGo (i k : Nat) (ps : List Player) :
    (resetOthersGo i k ps).length = ps.length := by
  induction ps generalizing k with
  | nil => rfl
  | cons p t ih => simp [resetOthersGo, ih (k + 1)]

lemma length_resetOthers (i : Nat) (ps : List Player) :
    (resetOthers i ps).length = ps.length :=
  length_resetOthersGo i 0 ps

lemma getD_resetOthers_self (i : Nat) (ps : List Player) :
    (resetOthers i ps).getD i default = ps.getD i default := by
  rcases h : ps[i]? with - | p
  · have hge : ps.length ≤ i := by
      by_contra hlt
      rw [List.getElem?_eq_getElem (by omega)] at h
      exact Option.noConfusion h
    have h2 : (resetOthers i ps)[i]? = none := by
      rw [List.getElem?_eq_none_iff]
      rw [length_resetOthers]
      exact hge
    simp [List.getD, h, h2]
  · have h2 : (resetOthers i ps)[i]? = some p := by
      rw [resetOthers_getElem?, h]
      simp
    simp [List.getD, h, h2]

lemma chipsOf_map_reset (ps : List Player) :
    chipsOf (ps.map fun p => { p with currentBet := 0, hasActed := false }) =
      chipsOf ps := by
  induction ps with
  | nil => rfl
  | cons p t ih => simp [chipsOf_cons, ih]

lemma idsOf_map_reset (ps : List Player) :
    idsOf (ps.map fun p => { p with currentBet := 0, hasActed := false }) =
      idsOf ps := by
  induction ps with
  | nil => rfl
  | cons p t ih => simp [idsOf_cons, ih]

lemma chipsOf_award (ps : List Player) (wid : String) (pot : Int) :
    chipsOf (ps.map fun p =>
        if p.id = wid then { p with chips := p.chips + pot } else p) =
      chipsOf ps + pot * (ps.countP fun p => decide (p.id = wid)) := by
  induction ps with
  | nil => simp [chipsOf]
  | cons p t ih =>
    rw [List.map_cons, chipsOf_cons, ih, List.countP_cons, chipsOf_cons]
    by_cases h : p.id = wid
    · simp [h]; ring
    · simp [h]; ring

lemma idsOf_award (ps : List Player) (wid : String) (pot : Int) :
    idsOf (ps.map fun p =>
        if p.id = wid then { p with chips := p.chips + pot } else p) =
      idsOf ps := by
  induction ps with
  | nil => rfl
  | cons p t ih =>
    rw [List.map_cons, idsOf_cons, ih]
    by_cases h : p.id = wid <;> simp [h, idsOf_cons]

lemma countP_id_eq_one (ps : List Player) (w : Player)
    (hnd : (idsOf ps).Nodup) (hw : w ∈ ps) :
    (ps.countP fun p => decide (p.id = w.id)) = 1 := by
  induction ps with
  | nil => cases hw
  | cons p t ih =>
    rw [idsOf_cons, List.nodup_cons] at hnd
    rw [List.countP_cons]
    rcases List.mem_cons.mp hw with h | h
    · subst h
      have h0 : (t.countP fun x => decide (x.id = w.id)) = 0 := by
        rw [List.countP_eq_zero]
        intro x hx
        simp only [decide_eq_true_eq]
        intro hex
        exact hnd.1 (hex ▸ List.mem_map_of_mem Player.id hx)
      simp [h0]
    · have hne : ¬ (p.id = w.id) := fun he =>
        hnd.1 (he ▸ List.mem_map_of_mem Player.id h)
      rw [ih hnd.2 h]
      simp [hne]

/-! ## Conservation lemmas: hand setup -/

lemma dealToPlayers_chips (d : List Card) (ps : List Player) :
    chipsOf (dealToPlayers d ps).1 = chipsOf ps := by
  induction ps generalizing d with
  | nil => rfl
  | cons p t ih => simp [dealToPlayers, chipsOf_cons, ih]

lemma dealToPlayers_ids (d : List Card) (ps : List Player) :
    idsOf (dealToPlayers d ps).1 = idsOf ps := by
  induction ps generalizing d with
  | nil => rfl
  | cons p t ih => simp [dealToPlayers, idsOf_cons, ih]

lemma dealToPlayers_length (d : List Card) (ps : List Player) :
    (dealToPlayers d ps).1.length = ps.length := by
  induction ps generalizing d with
  | nil => rfl
  | cons p t ih => simp [dealToPlayers, ih]

lemma dealToPlayers_getD_chips (d : List Card) (ps : List Player) (i : Nat) :
    ((dealToPlayers d ps).1.getD i default).chips =
      (ps.getD i default).chips := by
  induction ps generalizing d i with
  | nil => rfl
  | cons p t ih =>
    cases i with
    | zero => simp [dealToPlayers, List.getD_cons_zero]
    | succ m =>
      simp only [dealToPlayers, List.getD_cons_succ]
      exact ih _ m

lemma dealToPlayers_getD_id (d : List Card) (ps : List Player) (i : Nat) :
    ((dealToPlayers d ps).1.getD i default).id =
      (ps.getD i default).id := by
  induction ps generalizing d i with
  | nil => rfl
  | cons p t ih =>
    cases i with
    | zero => simp [dealToPlayers, List.getD_cons_zero]
    | succ m =>
      simp only [dealToPlayers, List.getD_cons_succ]
      exact ih _ m

lemma postBlind_chips (blind : Int) (idx : Nat) (ps : List Player)
    (h : idx < ps.length) :
    chipsOf (postBlind blind idx ps).1 =
      chipsOf ps - (postBlind blind idx ps).2 := by
  simp only [postBlind]
  rw [chipsOf_set _ _ _ h]
  split <;> simp

lemma postBlind_ids (blind : Int) (idx : Nat) (ps : List Player) :
    idsOf (postBlind blind idx ps).1 = idsOf ps := by
  simp only [postBlind]
  apply idsOf_set
  split <;> rfl

lemma postBlind_length (blind : Int) (idx : Nat) (ps : List Player) :
    (postBlind blind idx ps).1.length = ps.length := by
  simp [postBlind]

/-- `startHand` establishes the conserved quantity: the blinds leave the
stacks and land in the pot. -/
lemma createGameState_potChips (d : List Card) (ps : List Player)
    (prev : Option Nat) :
    potChips (createGameState d ps prev) = chipsOf ps := by
  rcases hlen : ps.length with - | m
  · have hnil : ps = [] := List.eq_nil_of_length_eq_zero hlen
    subst hnil
    rcases prev with - | dd <;> rfl
  · have hn : 0 < ps.length := by omega
    have key : ∀ sb bb : Nat, sb < ps.length → bb < ps.length →
        chipsOf (postBlind BIG_BLIND bb
            (postBlind SMALL_BLIND sb (dealToPlayers d ps).1).1).1 +
          ((postBlind SMALL_BLIND sb (dealToPlayers d ps).1).2 +
            (postBlind BIG_BLIND bb
              (postBlind SMALL_BLIND sb (dealToPlayers d ps).1).1).2) =
          chipsOf ps := by
      intro sb bb hsb hbb
      have h0 : (dealToPlayers d ps).1.length = ps.length :=
        dealToPlayers_length d ps
      have h1 := postBlind_chips SMALL_BLIND sb (dealToPlayers d ps).1
        (by omega)
      have h2 := postBlind_chips BIG_BLIND bb
        (postBlind SMALL_BLIND sb (dealToPlayers d ps).1).1
        (by rw [postBlind_length]; omega)
      rw [h2, h1, dealToPlayers_chips]
      ring
    rcases prev with - | dd
    · exact key 0 ((0 + 1) % ps.length) hn (Nat.mod_lt _ hn)
    · exact key ((dd + 1) % ps.length)
        (((dd + 1) % ps.length + 1) % ps.length)
        (Nat.mod_lt _ hn) (Nat.mod_lt _ hn)

/-- `startHand` keeps the seats' identities. -/
lemma createGameState_ids (d : List Card) (ps : List Player)
    (prev : Option Nat) :
    idsOf (createGameState d ps prev).players = idsOf ps := by
  have key : ∀ sb bb : Nat,
      idsOf (postBlind BIG_BLIND bb
          (postBlind SMALL_BLIND sb (dealToPlayers d ps).1).1).1 =
        idsOf ps := by
    intro sb bb
    rw [postBlind_ids, postBlind_ids, dealToPlayers_ids]
  rcases prev with - | dd
  · exact key _ _
  · exact key _ _

/-! ## Conservation lemmas: winner resolution -/

lemma determineWinner_potChips (s : GameState)
    (hnd : (idsOf s.players).Nodup) :
    potChips (determineWinner s) = potChips s := by
  rcases hfil : s.players.filter (fun p => !p.folded) with - | ⟨w0, t⟩
  · simp only [determineWinner, hfil]
  rcases t with - | ⟨w1, rest⟩
  · -- forfeit: the lone survivor takes the pot
    have hw : w0 ∈ s.players :=
      List.mem_of_mem_filter (hfil ▸ List.mem_cons_self w0 [])
    simp only [determineWinner, hfil, potChips]
    rw [show ∀ ps : List Player, (ps.map Player.chips).sum = chipsOf ps
        from fun ps => rfl]
    rw [show ∀ ps : List Player, (ps.map Player.chips).sum = chipsOf ps
        from fun ps => rfl] -- no-op guard
    rw [chipsOf_award, countP_id_eq_one s.players w0 hnd hw]
    ring
  · -- showdown: the sort's head takes the pot
    have hlen : (List.insertionSort (fun x y => compareHands y.2 x.2 ≤ 0)
        ((w0 :: w1 :: rest).map fun p =>
          (p, evaluateHand p.cards s.communityCards))).length =
        rest.length + 2 := by
      rw [List.length_insertionSort, List.length_map]
      simp
    rcases hs : List.insertionSort (fun x y => compareHands y.2 x.2 ≤ 0)
        ((w0 :: w1 :: rest).map fun p =>
          (p, evaluateHand p.cards s.communityCards)) with - | ⟨top, tail⟩
    · rw [hs] at hlen
      simp at hlen
    · have htop : top ∈ (w0 :: w1 :: rest).map fun p =>
          (p, evaluateHand p.cards s.communityCards) :=
        (List.perm_insertionSort _ _).subset (hs ▸ List.mem_cons_self top tail)
      obtain ⟨p, hpmem, hptop⟩ := List.mem_map.mp htop
      have hpw : p ∈ s.players :=
        List.mem_of_mem_filter (hfil ▸ hpmem)
      have htop1 : top.1 = p := by rw [← hptop]
      simp only [determineWinner, hfil, hs, potChips]
      rw [show ∀ ps : List Player, (ps.map Player.chips).sum = chipsOf ps
          from fun ps => rfl]
      rw [chipsOf_award, htop1, countP_id_eq_one s.players p hnd hpw]
      unfold chipsOf
      ring

lemma determineWinner_ids (s : GameState) :
    idsOf (determineWinner s).players = idsOf s.players := by
  rcases hfil : s.players.filter (fun p => !p.folded) with - | ⟨w0, t⟩
  · simp only [determineWinner, hfil]
  rcases t with - | ⟨w1, rest⟩
  · simp only [determineWinner, hfil]
    exact idsOf_award s.players w0.id s.pot
  · rcases hs : List.insertionSort (fun x y => compareHands y.2 x.2 ≤ 0)
        ((w0 :: w1 :: rest).map fun p =>
          (p, evaluateHand p.cards s.communityCards)) with - | ⟨top, tail⟩
    · have hlen := congrArg List.length hs
      rw [List.length_insertionSort, List.length_map] at hlen
      simp at hlen
    · simp only [determineWinner, hfil, hs]
      exact idsOf_award s.players top.1.id s.pot

/-! ## Conservation lemmas: phase advancement -/

lemma map_chips_map_reset (ps : List Player) :
    (ps.map fun p => { p with currentBet := 0, hasActed := false }).map
      Player.chips = ps.map Player.chips := by
  rw [List.map_map]
  rfl

lemma moveToNextPhase_potChips (s : GameState)
    (hnd : (idsOf s.players).Nodup) :
    potChips (moveToNextPhase s) = potChips s := by
  cases hph : s.phase with
  | showdown => simp only [moveToNextPhase, hph]
  | river =>
    simp only [moveToNextPhase, hph]
    exact determineWinner_potChips { s with phase := .showdown } hnd
  | preflop =>
    simp only [moveToNextPhase, hph, potChips]
    rw [map_chips_map_reset]
  | flop =>
    simp only [moveToNextPhase, hph, potChips]
    rw [map_chips_map_reset]
  | turn =>
    simp only [moveToNextPhase, hph, potChips]
    rw [map_chips_map_reset]

lemma moveToNextPhase_ids (s : GameState) :
    idsOf (moveToNextPhase s).players = idsOf s.players := by
  cases hph : s.phase with
  | showdown => simp only [moveToNextPhase, hph]
  | river =>
    simp only [moveToNextPhase, hph]
    exact determineWinner_ids { s with phase := .showdown }
  | preflop =>
    simp only [moveToNextPhase, hph]
    exact idsOf_map_reset s.players
  | flop =>
    simp only [moveToNextPhase, hph]
    exact idsOf_map_reset s.players
  | turn =>
    simp only [moveToNextPhase, hph]
    exact idsOf_map_reset s.players

lemma fastForward_ids (n : Nat) (s : GameState) :
    idsOf (fastForward n s).players = idsOf s.players := by
  induction n generalizing s with
  | zero => rfl
  | succ m ih =>
    simp only [fastForward]
    split
    · rfl
    · rw [ih, moveToNextPhase_ids]

lemma fastForward_potChips (n : Nat) (s : GameState)
    (hnd : (idsOf s.players).Nodup) :
    potChips (fastForward n s) = potChips s := by
  induction n generalizing s with
  | zero => rfl
  | succ m ih =>
    simp only [fastForward]
    split
    · rfl
    · rw [ih _ (by rw [moveToNextPhase_ids]; exact hnd),
        moveToNextPhase_potChips s hnd]

/-! ## Conservation lemmas: actions -/

lemma findIdx?_some_bound (p : Player → Bool) (l : List Player) :
    ∀ acc i : Nat, List.findIdx? p l acc = some i →
      acc ≤ i ∧ i < acc + l.length := by
  induction l with
  | nil => intro acc i h; simp [List.findIdx?] at h
  | cons x t ih =>
    intro acc i h
    rw [List.findIdx?_cons] at h
    by_cases hp : p x
    · rw [if_pos hp] at h
      injection h with h
      subst h
      simp
    · rw [if_neg hp] at h
      have := ih (acc + 1) i h
      simp
      omega

lemma getElem?_of_mem_list {l : List Player} {a : Player} (h : a ∈ l) :
    ∃ i : Nat, l[i]? = some a := by
  obtain ⟨⟨n, hn⟩, hget⟩ := List.mem_iff_get.mp h
  refine ⟨n, ?_⟩
  rw [List.getElem?_eq_getElem hn]
  simp [← hget, List.get_eq_getElem]

lemma actionStep_potChips (s : GameState) (i : Nat) (a : Action)
    (amt : Option Int) (hlt : i < s.players.length) :
    chipsOf (actionStep s i (s.players.getD i default) a amt).1 +
      (actionStep s i (s.players.getD i default) a amt).2.1 =
      chipsOf s.players + s.pot := by
  cases a with
  | fold =>
    simp only [actionStep]
    rw [chipsOf_set _ _ _ hlt]
    ring
  | check =>
    simp only [actionStep]
    rw [chipsOf_set _ _ _ hlt]
    ring
  | call =>
    simp only [actionStep]
    rw [chipsOf_set _ _ _ hlt]
    ring
  | raise =>
    simp only [actionStep]
    rw [chipsOf_resetOthers, chipsOf_set _ _ _ hlt]
    ring
  | allIn =>
    simp only [actionStep]
    split
    · rw [chipsOf_set _ _ _ (by rw [length_resetOthers]; exact hlt),
        getD_resetOthers_self, chipsOf_resetOthers]
      ring
    · rw [chipsOf_set _ _ _ hlt]
      ring

lemma actionStep_ids (s : GameState) (i : Nat) (a : Action)
    (amt : Option Int) :
    idsOf (actionStep s i (s.players.getD i default) a amt).1 =
      idsOf s.players := by
  cases a with
  | fold => exact idsOf_set _ _ _ rfl
  | check => exact idsOf_set _ _ _ rfl
  | call => exact idsOf_set _ _ _ rfl
  | raise =>
    simp only [actionStep]
    rw [idsOf_resetOthers]
    exact idsOf_set _ _ _ rfl
  | allIn =>
    simp only [actionStep]
    split
    · rw [idsOf_set _ _ _ (by rw [getD_resetOthers_self]),
        idsOf_resetOthers]
    · exact idsOf_set _ _ _ rfl

lemma resolveAfterAction_potChips (n i : Nat) (ns : GameState)
    (hnd : (idsOf ns.players).Nodup) :
    potChips (resolveAfterAction n i ns) = potChips ns := by
  unfold resolveAfterAction
  split
  · exact determineWinner_potChips ns hnd
  · split
    · split
      · exact fastForward_potChips 4 ns hnd
      · exact moveToNextPhase_potChips ns hnd
    · rfl

lemma resolveAfterAction_ids (n i : Nat) (ns : GameState) :
    idsOf (resolveAfterAction n i ns).players = idsOf ns.players := by
  unfold resolveAfterAction
  split
  · exact determineWinner_ids ns
  · split
    · split
      · exact fastForward_ids 4 ns
      · exact moveToNextPhase_ids ns
    · rfl

lemma processAction_potChips (s : GameState) (pid : String) (a : Action)
    (amt : Option Int) (hnd : (idsOf s.players).Nodup) :
    potChips (processAction s pid a amt) = potChips s := by
  cases hf : s.players.findIdx? (fun p => decide (p.id = pid)) with
  | none => simp [processAction, hf]
  | some i =>
    have hlt : i < s.players.length := by
      have := findIdx?_some_bound (fun p => decide (p.id = pid)) s.players 0 i hf
      omega
    simp only [processAction, hf]
    rw [resolveAfterAction_potChips _ _ _
      (by rw [show idsOf { s with
          players := (actionStep s i (s.players.getD i default) a amt).1
          pot := (actionStep s i (s.players.getD i default) a amt).2.1
          currentBet := (actionStep s i (s.players.getD i default) a amt).2.2.1
          minRaise := (actionStep s i (s.players.getD i default) a amt).2.2.2
            : GameState }.players =
          idsOf s.players from actionStep_ids s i a amt]; exact hnd)]
    show chipsOf (actionStep s i (s.players.getD i default) a amt).1 +
      (actionStep s i (s.players.getD i default) a amt).2.1 = potChips s
    rw [actionStep_potChips s i a amt hlt]
    rfl

lemma processAction_ids (s : GameState) (pid : String) (a : Action)
    (amt : Option Int) :
    idsOf (processAction s pid a amt).players = idsOf s.players := by
  cases hf : s.players.findIdx? (fun p => decide (p.id = pid)) with
  | none => simp [processAction, hf]
  | some i =>
    simp only [processAction, hf]
    rw [resolveAfterAction_ids]
    exact actionStep_ids s i a amt

/-- Winner resolution zeroes the pot and adds it, in full, to the winning
seat's stack (given an id-distinct roster with a live player). -/
lemma determineWinner_resolution (s : GameState)
    (hact : ∃ p ∈ s.players, p.folded = false) :
    (determineWinner s).pot = 0 ∧
    ∃ (k : Nat) (pk q : Player), s.players[k]? = some pk ∧
      (determineWinner s).players[k]? = some q ∧
      q.chips = pk.chips + s.pot ∧
      (determineWinner s).winner = some (pk.id, pk.name) := by
  obtain ⟨p0, hp0, hp0f⟩ := hact
  have hp0fil : p0 ∈ s.players.filter fun p => !p.folded :=
    List.mem_filter.mpr ⟨hp0, by simp [hp0f]⟩
  rcases hfil : s.players.filter (fun p => !p.folded) with - | ⟨w0, t⟩
  · rw [hfil] at hp0fil
    cases hp0fil
  rcases t with - | ⟨w1, rest⟩
  · have hw : w0 ∈ s.players :=
      List.mem_of_mem_filter (hfil ▸ List.mem_cons_self w0 [])
    obtain ⟨k, hk⟩ := getElem?_of_mem_list hw
    refine ⟨by simp only [determineWinner, hfil], k, w0,
      { w0 with chips := w0.chips + s.pot }, hk, ?_, rfl, ?_⟩
    · simp only [determineWinner, hfil, List.getElem?_map, hk]
      simp
    · simp only [determineWinner, hfil]
  · rcases hs : List.insertionSort (fun x y => compareHands y.2 x.2 ≤ 0)
        ((w0 :: w1 :: rest).map fun p =>
          (p, evaluateHand p.cards s.communityCards)) with - | ⟨top, tail⟩
    · have hlen := congrArg List.length hs
      rw [List.length_insertionSort, List.length_map] at hlen
      simp at hlen
    · have htop : top ∈ (w0 :: w1 :: rest).map fun p =>
          (p, evaluateHand p.cards s.communityCards) :=
        (List.perm_insertionSort _ _).subset (hs ▸ List.mem_cons_self top tail)
      obtain ⟨p, hpmem, hptop⟩ := List.mem_map.mp htop
      have hpw : p ∈ s.players := List.mem_of_mem_filter (hfil ▸ hpmem)
      have htop1 : top.1 = p := by rw [← hptop]
      obtain ⟨k, hk⟩ := getElem?_of_mem_list hpw
      refine ⟨by simp only [determineWinner, hfil, hs], k, p,
        { p with chips := p.chips + s.pot }, hk, ?_, rfl, ?_⟩
      · simp only [determineWinner, hfil, hs, List.getElem?_map, hk, htop1]
        simp
      · simp only [determineWinner, hfil, hs, htop1]

/-- Phase advancement from a betting street moves no chips, keeps the pot,
and zeroes every seat's `currentBet`. -/
lemma moveToNextPhase_reset (s : GameState)
    (h : s.phase = Phase.preflop ∨ s.phase = Phase.flop ∨
      s.phase = Phase.turn) :
    (moveToNextPhase s).players.map Player.chips =
      s.players.map Player.chips ∧
    (moveToNextPhase s).pot = s.pot ∧
    ∀ p ∈ (moveToNextPhase s).players, p.currentBet = 0 := by
  have key : ∀ s' : GameState, s'.players =
      (s.players.map fun p => { p with currentBet := 0, hasActed := false }) →
      s'.pot = s.pot →
      s'.players.map Player.chips = s.players.map Player.chips ∧
      s'.pot = s.pot ∧ ∀ p ∈ s'.players, p.currentBet = 0 := by
    intro s' hp hpot
    refine ⟨by rw [hp, map_chips_map_reset], hpot, ?_⟩
    intro p hmem
    rw [hp] at hmem
    obtain ⟨q, -, rfl⟩ := List.mem_map.mp hmem
    rfl
  rcases h with hph | hph | hph <;>
    exact key _ (by simp only [moveToNextPhase, hph]) (by simp only [moveToNextPhase, hph])

/-- C1 (amended): along every `startHand`-then-`processAction` trajectory,
the sum of the players' stacks plus the pot equals the hand's pre-hand chip
total — each bet moves chips into the pot at the moment it is made, so
`currentBet` is excluded from the sum. -/
theorem reachable_chips_pot_conservation (t : Int) (s : GameState)
    (h : Reachable t s) : potChips s = t := by
  have main : ∀ (t : Int) (s : GameState), Reachable t s →
      potChips s = t ∧ (idsOf s.players).Nodup := by
    intro t s h
    induction h with
    | start d ps prev hids =>
      refine ⟨createGameState_potChips d ps prev, ?_⟩
      rw [createGameState_ids]
      exact hids
    | step pid a amt hr ih =>
      refine ⟨?_, ?_⟩
      · rw [processAction_potChips _ _ _ _ ih.2]
        exact ih.1
      · rw [processAction_ids]
        exact ih.2
  exact (main t s h).1

/-- C1 witness: the freshly started two-player hand carries its 2000-chip
starting total. -/
theorem reachable_chips_pot_conservation_witness :
    potChips startedFresh = (freshPair.map Player.chips).sum :=
  reachable_chips_pot_conservation _ _
    (Reachable.start [] freshPair none (by decide))

/-- C10: every engine operation preserves the sum of stacks plus pot (on an
id-distinct roster): each `processAction`, each `moveToNextPhase`, and
`determineWinner` conserve it; phase advancement from a betting street moves
no chips, keeps the pot, and zeroes every `currentBet`; winner resolution
zeroes the pot and adds it whole to the winning seat; and `createGameState`
turns the initial stacks into stacks-plus-pot. -/
theorem engine_operations_conserve_chips :
    (∀ (s : GameState) (pid : String) (a : Action) (amt : Option Int),
        (idsOf s.players).Nodup →
        potChips (processAction s pid a amt) = potChips s) ∧
    (∀ s : GameState, (idsOf s.players).Nodup →
        potChips (moveToNextPhase s) = potChips s) ∧
    (∀ s : GameState, (idsOf s.players).Nodup →
        potChips (determineWinner s) = potChips s ∧
        ((∃ p ∈ s.players, p.folded = false) →
          (determineWinner s).pot = 0 ∧
          ∃ (k : Nat) (pk q : Player), s.players[k]? = some pk ∧
            (determineWinner s).players[k]? = some q ∧
            q.chips = pk.chips + s.pot ∧
            (determineWinner s).winner = some (pk.id, pk.name))) ∧
    (∀ s : GameState, (s.phase = Phase.preflop ∨ s.phase = Phase.flop ∨
        s.phase = Phase.turn) →
        (moveToNextPhase s).players.map Player.chips =
          s.players.map Player.chips ∧
        (moveToNextPhase s).pot = s.pot ∧
        ∀ p ∈ (moveToNextPhase s).players, p.currentBet = 0) ∧
    (∀ (d : List Card) (ps : List Player) (prev : Option Nat),
        potChips (createGameState d ps prev) = (ps.map Player.chips).sum) :=
  ⟨fun s pid a amt hnd => processAction_potChips s pid a amt hnd,
   fun s hnd => moveToNextPhase_potChips s hnd,
   fun s hnd => ⟨determineWinner_potChips s hnd, determineWinner_resolution s⟩,
   fun s h => moveToNextPhase_reset s h,
   fun d ps prev => createGameState_potChips d ps prev⟩

/-- C10 witness: the conservation conjuncts evaluated on the concrete
post-blind state (a call, a phase advance, a winner resolution) and on the
fresh two-player start. -/
theorem engine_operations_conserve_chips_witness :
    potChips (processAction behindState "b" Action.call none) =
      potChips behindState ∧
    potChips (moveToNextPhase behindState) = potChips behindState ∧
    (determineWinner behindState).pot = 0 ∧
    (moveToNextPhase behindState).players.map Player.chips =
      behindState.players.map Player.chips ∧
    potChips (createGameState [] freshPair none) =
      (freshPair.map Player.chips).sum :=
  ⟨engine_operations_conserve_chips.1 behindState "b" Action.call none
      (by decide),
   engine_operations_conserve_chips.2.1 behindState (by decide),
   ((engine_operations_conserve_chips.2.2.1 behindState (by decide)).2
      (by decide)).1,
   (engine_operations_conserve_chips.2.2.2.1 behindState (by decide)).1,
   engine_operations_conserve_chips.2.2.2.2 [] freshPair none⟩

/-! ## Blind-state lemmas (C9) -/

lemma postBlind_amt (blind : Int) (idx : Nat) (ps : List Player) :
    (postBlind blind idx ps).2 = min blind ((ps.getD idx default).chips) := rfl

lemma getD_set_ne (ps : List Player) (i j : Nat) (b : Player) (hij : i ≠ j) :
    (ps.set i b).getD j default = ps.getD j default := by
  simp [List.getD, List.getElem?_set_ne hij]

lemma succ_mod_ne (n D : Nat) (h2 : 2 ≤ n) (hD : D < n) : (D + 1) % n ≠ D := by
  rcases Nat.lt_or_ge (D + 1) n with h | h
  · rw [Nat.mod_eq_of_lt h]
    omega
  · have he : D + 1 = n := by omega
    rw [he, Nat.mod_self]
    omega

/-- C9 (amended): after `startHand` on at least two seats, `currentBet` is
the posted big blind `min(BIG_BLIND, bb.chips)`, `minRaise` is the nominal
`BIG_BLIND` constant, the pot is the sum of the two posted blinds, and the
small-blind (dealer) seat acts first. -/
theorem startHand_blind_state (d : List Card) (ps : List Player)
    (prev : Option Nat) (h2 : 2 ≤ ps.length) :
    (createGameState d ps prev).currentBet =
      min BIG_BLIND ((ps.getD (((createGameState d ps prev).dealerIndex + 1) %
        ps.length) default).chips) ∧
    (createGameState d ps prev).minRaise = BIG_BLIND ∧
    (createGameState d ps prev).pot =
      min SMALL_BLIND ((ps.getD (createGameState d ps prev).dealerIndex
        default).chips) +
      min BIG_BLIND ((ps.getD (((createGameState d ps prev).dealerIndex + 1) %
        ps.length) default).chips) ∧
    (createGameState d ps prev).currentPlayerIndex =
      (createGameState d ps prev).dealerIndex := by
  have hn : 0 < ps.length := by omega
  have key : ∀ D : Nat, D < ps.length →
      (postBlind BIG_BLIND ((D + 1) % ps.length)
          (postBlind SMALL_BLIND D (dealToPlayers d ps).1).1).2 =
        min BIG_BLIND ((ps.getD ((D + 1) % ps.length) default).chips) ∧
      (postBlind SMALL_BLIND D (dealToPlayers d ps).1).2 =
        min SMALL_BLIND ((ps.getD D default).chips) := by
    intro D hD
    have hBD : (D + 1) % ps.length ≠ D := succ_mod_ne ps.length D h2 hD
    constructor
    · rw [postBlind_amt]
      have hset : (postBlind SMALL_BLIND D (dealToPlayers d ps).1).1.getD
          ((D + 1) % ps.length) default =
          (dealToPlayers d ps).1.getD ((D + 1) % ps.length) default := by
        simp only [postBlind]
        exact getD_set_ne _ _ _ _ (fun h => hBD h.symm)
      rw [hset, show ((dealToPlayers d ps).1.getD ((D + 1) % ps.length)
          default).chips = (ps.getD ((D + 1) % ps.length) default).chips
          from dealToPlayers_getD_chips d ps _]
    · rw [postBlind_amt, dealToPlayers_getD_chips]
  rcases prev with - | dd
  · obtain ⟨hbb, hsb⟩ := key 0 hn
    refine ⟨hbb, rfl, ?_, rfl⟩
    show (postBlind SMALL_BLIND 0 (dealToPlayers d ps).1).2 +
        (postBlind BIG_BLIND ((0 + 1) % ps.length)
          (postBlind SMALL_BLIND 0 (dealToPlayers d ps).1).1).2 =
      min SMALL_BLIND ((ps.getD 0 default).chips) +
      min BIG_BLIND ((ps.getD ((0 + 1) % ps.length) default).chips)
    rw [hsb, hbb]
  · obtain ⟨hbb, hsb⟩ := key ((dd + 1) % ps.length) (Nat.mod_lt _ hn)
    refine ⟨hbb, rfl, ?_, rfl⟩
    show (postBlind SMALL_BLIND ((dd + 1) % ps.length)
          (dealToPlayers d ps).1).2 +
        (postBlind BIG_BLIND (((dd + 1) % ps.length + 1) % ps.length)
          (postBlind SMALL_BLIND ((dd + 1) % ps.length)
            (dealToPlayers d ps).1).1).2 =
      min SMALL_BLIND ((ps.getD ((dd + 1) % ps.length) default).chips) +
      min BIG_BLIND
        ((ps.getD (((dd + 1) % ps.length + 1) % ps.length) default).chips)
    rw [hsb, hbb]

/-- C9 witness: the amended blind state evaluated on two fresh 1000-chip
players. -/
theorem startHand_blind_state_witness :
    (createGameState [] freshPair none).currentBet =
      min BIG_BLIND ((freshPair.getD
        (((createGameState [] freshPair none).dealerIndex + 1) %
          freshPair.length) default).chips) ∧
    (createGameState [] freshPair none).minRaise = BIG_BLIND ∧
    (createGameState [] freshPair none).pot =
      min SMALL_BLIND ((freshPair.getD
        (createGameState [] freshPair none).dealerIndex default).chips) +
      min BIG_BLIND ((freshPair.getD
        (((createGameState [] freshPair none).dealerIndex + 1) %
          freshPair.length) default).chips) ∧
    (createGameState [] freshPair none).currentPlayerIndex =
      (createGameState [] freshPair none).dealerIndex :=
  startHand_blind_state [] freshPair none (by decide)

end Poker
